import Mathlib

/-!
# Verification of the second-brain RAG pipeline

Shallow embedding of the core of the `second_brain` repository:

* `RAGManager.rag_retrieve` and its context-formatting logic
  (`src/second_brain/agents/ingestor.py`),
* `RAGManager.ingest_folder` over a vector store modelled from the spec's
  collaborator contract,
* `MemoryManager` (`src/second_brain/agents/memory_manager.py`),
* `PIIGuard` pattern-based redaction and its failure semantics
  (`src/second_brain/utils/guardrails.py`), including an executable
  backtracking matcher for the concrete `PII_PATTERNS` regular expressions,
* `ThoughtAgent.run` (`src/second_brain/agents/thought_agent.py`) with the
  external LLM call modelled as a fallible function.

External collaborators (ChromaDB, SentenceTransformer, the LLM, the
`guardrails` library) are parameters of the embedded functions; everything
the repository's own code does is translated directly from the source.
-/

namespace SecondBrain

/-- Metadata attached to a stored chunk, as built by `ingest_folder` and read
back by `rag_retrieve` (a Python dict with optional keys, read via
`meta.get("filename", ...)`). -/
structure Meta where
  filename : Option String
  chunk_index : Option Int
deriving DecidableEq, Repr

/-- Result shape of `collection.query(...)`: Python `results.get("documents")`
and `results.get("metadatas")` may each be absent (`None`) or a (possibly
empty) list of per-query lists. The code always reads index 0. -/
structure QueryResults where
  documents : Option (List (List String))
  metadatas : Option (List (List Meta))
deriving Repr

/-- Python `str.strip()`: remove leading and trailing whitespace. -/
def pyStrip (s : String) : String :=
  ⟨((s.data.dropWhile Char.isWhitespace).reverse.dropWhile Char.isWhitespace).reverse⟩

/-- The literal fallback sentence of `rag_retrieve`. -/
def fallbackMsg : String := "No relevant information found in your knowledge base."

/-- The fixed preamble of a non-empty retrieval context. -/
def ragPreamble : String := "Here are some relevant notes from your knowledge base:\n\n"

/-- One formatted source block:
`f"{chunk_info}\n{doc.strip()}\n"` with `chunk_info = f"[Source: {filename}]"`
and `filename = meta.get("filename", "Unknown file")`. -/
def formatBlock (doc : String) (meta : Meta) : String :=
  "[Source: " ++ meta.filename.getD "Unknown file" ++ "]\n" ++ pyStrip doc ++ "\n"

/-- The list `context_blocks` built by the
`for doc, meta in zip(docs_list, metas_list)` loop of `rag_retrieve`. -/
def contextBlocks (docs : List String) (metas : List Meta) : List String :=
  (docs.zip metas).map fun p => formatBlock p.1 p.2

/-- Translation of `RAGManager.rag_retrieve`, line by line from
`ingestor.py` (the part after the vector-store call; embedding and the
store query itself are external and enter through `results`):
return the fallback sentence when `documents` is `None`, the empty list, or
its first element is empty; otherwise pair the first documents list with the
first metadatas list (empty when `metadatas` is `None`, empty, or its first
element is empty), format each pair as a block, join with `"\n---\n"`, and
wrap with the preamble and a trailing newline. -/
def RAGManager.rag_retrieve (results : QueryResults) : String :=
  match results.documents with
  | none => fallbackMsg
  | some documentsList =>
    match documentsList with
    | [] => fallbackMsg
    | firstDocs :: _ =>
      if firstDocs = [] then fallbackMsg
      else
        let metasList : List Meta :=
          match results.metadatas with
          | none => []
          | some [] => []
          | some (m0 :: _) => m0
        ragPreamble ++ String.intercalate "\n---\n" (contextBlocks firstDocs metasList) ++ "\n"

/-- A memory entry `{query: ..., response: ...}`. -/
structure MemoryEntry where
  query : String
  response : String
deriving DecidableEq, Repr

/-- Translation of `MemoryManager.get_recent_context(n)`, the Python slice
`self.memory[-n:]`: for `n = 0` this is `memory[0:]`, the whole list; for
`n ≥ 1` it drops all but the last `n` elements (`max(len - n, 0)` is Nat
subtraction). -/
def MemoryManager.get_recent_context (memory : List MemoryEntry) (n : Nat) : List MemoryEntry :=
  if n = 0 then memory else memory.drop (memory.length - n)

/-- State of a `MemoryManager`: the in-memory `self.memory` list and the
contents of the persisted JSON file (`_save` rewrites the whole file from
the in-memory list). -/
structure MemState where
  log : List MemoryEntry
  file : List MemoryEntry
deriving DecidableEq, Repr

/-- Translation of `MemoryManager.add_entry`: sanitize both strings through
the PII guard (passed as the function `san`), append the entry to the
in-memory list, and persist the full list via `_save`. -/
def MemoryManager.add_entry (san : String → String) (st : MemState)
    (user_query response : String) : MemState :=
  let entry : MemoryEntry := { query := san user_query, response := san response }
  let newLog := st.log ++ [entry]
  { log := newLog, file := newLog }

/-- Translation of `MemoryManager.clear`: empty the in-memory list and
persist it. -/
def MemoryManager.clear (_ : MemState) : MemState :=
  { log := [], file := [] }

/-- Memory states reachable from a fresh (empty) manager through
`add_entry` and `clear`, with sanitizer `san`. -/
inductive MemReachable (san : String → String) : MemState → Prop where
  | init : MemReachable san { log := [], file := [] }
  | add (st : MemState) (q r : String) :
      MemReachable san st → MemReachable san (MemoryManager.add_entry san st q r)
  | clear (st : MemState) :
      MemReachable san st → MemReachable san (MemoryManager.clear st)

/-! ## Pattern-based PII redaction

Executable model of Python `re.sub` restricted to the constructs used by
`PII_PATTERNS`: character classes, literals, concatenation, alternation
with left preference, greedy `?`, `+`, `{n}`, `{n,}`, `{1,3}`, and the
zero-width word boundary `\b`. Matching is backtracking with Python's
preference order (alternation prefers the left branch, quantifiers are
greedy); substitution scans positions left to right and is non-overlapping,
continuing after each match, exactly as `re.sub` does. -/

/-- Regular-expression syntax sufficient for the `PII_PATTERNS` table.
Every Kleene star occurring in that table is applied to a single-character
class, so the star constructor is specialised to a class (`star p` is
`[…]*` for the class `p`); this keeps the matcher structurally recursive
while covering `+` and `{n,}` exactly. -/
inductive RE where
  | eps
  | cls (p : Char → Bool)
  | seq (a b : RE)
  | alt (a b : RE)
  | star (p : Char → Bool)
  | wb

/-- Python word character (ASCII `\w`): letter, digit or underscore. -/
def isWordChar (c : Char) : Bool := c.isAlphanum || c = '_'

/-- Word boundary between the previously consumed character and the next
input character: exactly one of the two sides is a word character (a
missing character, at either end of the text, counts as non-word). -/
def wordBoundary (prev : Option Char) (s : List Char) : Bool :=
  let a := match prev with | none => false | some c => isWordChar c
  let b := match s with | [] => false | c :: _ => isWordChar c
  a != b

/-- Greedy match of `[…]*` for the class `p` in continuation-passing style:
prefer consuming one more matching character, and hand characters back one
at a time when the continuation fails — exactly the `re` module's greedy
backtracking for a starred character class. -/
def starClsMatch (p : Char → Bool) (prev : Option Char) (s : List Char)
    (k : Option Char → List Char → Option (List Char)) : Option (List Char) :=
  match s with
  | [] => k prev []
  | c :: rest =>
    if p c then (starClsMatch p (some c) rest k).orElse fun _ => k prev (c :: rest)
    else k prev (c :: rest)

/-- Backtracking matcher in continuation-passing style, mirroring the `re`
module's semantics: alternation prefers its left branch and star is greedy.
The continuation receives the last consumed character (needed by `wb`) and
the remaining input, and returns the suffix left after the whole match, or
`none` to force backtracking. -/
def reMatch : RE → Option Char → List Char →
    (Option Char → List Char → Option (List Char)) → Option (List Char)
  | .eps, prev, s, k => k prev s
  | .cls p, _, s, k =>
    match s with
    | [] => none
    | c :: rest => if p c then k (some c) rest else none
  | .seq a b, prev, s, k =>
    reMatch a prev s fun p2 s2 => reMatch b p2 s2 k
  | .alt a b, prev, s, k =>
    (reMatch a prev s k).orElse fun _ => reMatch b prev s k
  | .star p, prev, s, k => starClsMatch p prev s k
  | .wb, prev, s, k => if wordBoundary prev s then k prev s else none

/-- Length of the preference-order first match of `r` at the current
position, or `none` when `r` does not match here. -/
def matchLenAt (r : RE) (prev : Option Char) (s : List Char) : Option Nat :=
  match reMatch r prev s (fun _ rest => some rest) with
  | some rest => some (s.length - rest.length)
  | none => none

/-- One pass of `re.sub(pattern, repl, text)`: scan left to right; where
the pattern matches, emit the replacement and continue after the match
(after one character for a zero-width match, as `re.sub` does); otherwise
keep the character. `fuel` bounds the scan; every step consumes at least
one input character, so the input length is enough. -/
def reSubScan : Nat → RE → List Char → Option Char → List Char → List Char
  | 0, _, _, _, s => s
  | _ + 1, _, _, _, [] => []
  | fuel + 1, r, repl, prev, c :: rest =>
    match matchLenAt r prev (c :: rest) with
    | some 0 => repl ++ c :: reSubScan fuel r repl (some c) rest
    | some (n + 1) =>
      repl ++ reSubScan fuel r repl (((c :: rest).take (n + 1)).getLast?)
        ((c :: rest).drop (n + 1))
    | none => c :: reSubScan fuel r repl (some c) rest

/-- Full `re.sub(pattern, repl, text)` over a string. -/
def reSub (r : RE) (repl : String) (text : String) : String :=
  ⟨reSubScan text.data.length r repl.data none text.data⟩

/-- Literal character. -/
def RE.ch (c : Char) : RE := .cls fun x => x = c

/-- Greedy `?`. -/
def RE.opt (a : RE) : RE := .alt a .eps

/-- Greedy `+` of a character class. -/
def RE.plus (p : Char → Bool) : RE := .seq (.cls p) (.star p)

/-- Exact repetition `{n}`. -/
def RE.rep (a : RE) : Nat → RE
  | 0 => .eps
  | n + 1 => .seq a (RE.rep a n)

/-- Digit class `\d` (ASCII). -/
def RE.digit : RE := .cls Char.isDigit

/-- Character class `[A-Za-z0-9._%+-]` of the email pattern's local part
(`re.IGNORECASE` is immaterial: both cases are already in each class). -/
def emailLocalChar (c : Char) : Bool :=
  c.isAlphanum || c = '.' || c = '_' || c = '%' || c = '+' || c = '-'

/-- Character class `[A-Za-z0-9.-]` of the email pattern's domain part. -/
def emailDomainChar (c : Char) : Bool :=
  c.isAlphanum || c = '.' || c = '-'

/-- Character class `[A-Z|a-z]`: ASCII letters and, literally, the bar. -/
def tldChar (c : Char) : Bool :=
  c.isAlpha || c = '|'

/-- Character class `[-.\s]`: hyphen, dot, or whitespace
(Python ASCII `\s` is space, tab, newline, carriage return, vertical tab,
form feed). -/
def sepChar (c : Char) : Bool :=
  c = '-' || c = '.' || c = ' ' || c = '\t' || c = '\n' || c = '\r' ||
    c = '\x0b' || c = '\x0c'

/-- Email pattern `\b[A-Za-z0-9._%+-]+@[A-Za-z0-9.-]+\.[A-Z|a-z]{2,}\b`. -/
def emailRE : RE :=
  .seq .wb (.seq (RE.plus emailLocalChar)
    (.seq (RE.ch '@') (.seq (RE.plus emailDomainChar)
      (.seq (RE.ch '.')
        (.seq (.seq (RE.rep (.cls tldChar) 2) (.star tldChar)) .wb)))))

/-- Phone pattern `\b(?:\+?1[-.\s]?)?\(?\d{3}\)?[-.\s]?\d{3}[-.\s]?\d{4}\b`. -/
def phoneRE : RE :=
  .seq .wb (.seq (RE.opt (.seq (RE.opt (RE.ch '+'))
      (.seq (RE.ch '1') (RE.opt (.cls sepChar)))))
    (.seq (RE.opt (RE.ch '(')) (.seq (RE.rep RE.digit 3)
      (.seq (RE.opt (RE.ch ')')) (.seq (RE.opt (.cls sepChar))
        (.seq (RE.rep RE.digit 3) (.seq (RE.opt (.cls sepChar))
          (.seq (RE.rep RE.digit 4) .wb))))))))

/-- Social-security pattern `\b\d{3}-\d{2}-\d{4}\b`. -/
def ssnRE : RE :=
  .seq .wb (.seq (RE.rep RE.digit 3) (.seq (RE.ch '-') (.seq (RE.rep RE.digit 2)
    (.seq (RE.ch '-') (.seq (RE.rep RE.digit 4) .wb)))))

/-- Credit-card pattern `\b\d{4}[-.\s]?\d{4}[-.\s]?\d{4}[-.\s]?\d{4}\b`. -/
def creditCardRE : RE :=
  .seq .wb (.seq (RE.rep RE.digit 4) (.seq (RE.opt (.cls sepChar))
    (.seq (RE.rep RE.digit 4) (.seq (RE.opt (.cls sepChar))
      (.seq (RE.rep RE.digit 4) (.seq (RE.opt (.cls sepChar))
        (.seq (RE.rep RE.digit 4) .wb)))))))

/-- Octet subpattern `\d{1,3}` (greedy: three digits preferred, then two,
then one). -/
def octetRE : RE := .alt (RE.rep RE.digit 3) (.alt (RE.rep RE.digit 2) RE.digit)

/-- IPv4 pattern `\b(?:\d{1,3}\.){3}\d{1,3}\b`. -/
def ipRE : RE :=
  .seq .wb (.seq (RE.rep (.seq octetRE (RE.ch '.')) 3) (.seq octetRE .wb))

/-- The `PII_PATTERNS` table in dict insertion order:
email, phone, ssn, credit_card, ip_address. -/
def PII_PATTERNS : List RE := [emailRE, phoneRE, ssnRE, creditCardRE, ipRE]

/-- Translation of `PIIGuard._sanitize_regex`: apply each pattern's
`re.sub` in table order, replacing every match with `[REDACTED]`. -/
def PIIGuard.sanitize_regex (text : String) : String :=
  PII_PATTERNS.foldl (fun acc r => reSub r "[REDACTED]" acc) text

/-- Translation of `PIIGuard.sanitize`, with the two detection strategies
as fallible functions (an `Except.error` models a thrown exception):
disabled or empty input returns the input unchanged; otherwise the external
guard is tried first when present; if it throws, pattern-based redaction is
tried for this call; if that also throws, the original text is returned
(the outer `except` block re-runs the regex strategy and, on a second
exception, falls back to the input — never raising). -/
def PIIGuard.sanitize (enabled : Bool) (guard : Option (String → Except String String))
    (regexStrategy : String → Except String String) (text : String) : String :=
  if enabled = false || text = "" then text
  else
    match guard with
    | some g =>
      match g text with
      | .ok s => s
      | .error _ =>
        match regexStrategy text with
        | .ok s => s
        | .error _ => text
    | none =>
      match regexStrategy text with
      | .ok s => s
      | .error _ => text

/-! ## Thought agent -/

/-- Rendering of past memory in `ThoughtAgent.run`: alternating
`User:`/`Agent:` lines, or the fixed sentence when memory is empty. -/
def renderMemory (past : List MemoryEntry) : String :=
  if past.isEmpty then "No previous memory yet."
  else String.intercalate "\n"
    (past.map fun m => "User: " ++ m.query ++ "\nAgent: " ++ m.response)

/-- The `combined_input` f-string of `ThoughtAgent.run`, verbatim with the
source's indentation. -/
def composePrompt (memoryContext ragContext sanitizedPrompt : String) : String :=
  "\n                Memory Context:\n                " ++ memoryContext ++
  "\n\n                Knowledge Context (RAG):\n                " ++ ragContext ++
  "\n\n                User Query:\n                " ++ sanitizedPrompt ++
  "\n                "

/-- Translation of `ThoughtAgent.run`, with the PII guard as `san`, the
vector store as `queryStore` (query text to raw results) and the LLM as
`llm` (an `Except.error` models a raised exception). Following the source:
sanitize the prompt, retrieve and re-sanitize RAG context, recall the last
3 memory entries and sanitize their rendering, compose the prompt, call the
LLM. On an exception the `except` block re-raises and `add_entry` is never
reached, so the memory state is returned unchanged; on success the answer
is sanitized and stored through `MemoryManager.add_entry`. -/
def ThoughtAgent.run (san : String → String) (queryStore : String → QueryResults)
    (llm : String → Except String String) (st : MemState) (prompt : String) :
    Except String String × MemState :=
  let sanitized_prompt := san prompt
  let rag_context := san (RAGManager.rag_retrieve (queryStore sanitized_prompt))
  let past := MemoryManager.get_recent_context st.log 3
  let memory_context := san (renderMemory past)
  let combined := composePrompt memory_context rag_context sanitized_prompt
  match llm combined with
  | .error e => (.error e, st)
  | .ok out =>
    let answer := san out
    (.ok answer, MemoryManager.add_entry san st sanitized_prompt answer)

/-! ## Ingestion -/

/-- A note file in the ingestion folder: path stem, full name, content. -/
structure NoteFile where
  stem : String
  name : String
  content : String

/-- A stored chunk record: document text plus its metadata. -/
structure ChunkRec where
  text : String
  filename : String
  chunk_index : Nat
deriving DecidableEq, Repr

/-- The vector-store collection as an association list from chunk id to
record (insertion order kept). -/
abbrev VStore := List (String × ChunkRec)

/-- Modelled from the spec: the vector store's write operation. The store
itself (ChromaDB) is an external collaborator not under `src/`; spec §6
gives its contract `upsert(ids, embeddings, documents, metadatas)` and §3
requires id uniqueness within a collection — "re-ingesting the same file
with the same chunk count overwrites prior chunks at the same id". So a
write at an existing id overwrites the record there, and otherwise appends
a new entry. Embedding vectors are opaque and carried nowhere: they only
influence similarity search, which is external. -/
def VStore.upsert (store : VStore) (id : String) (r : ChunkRec) : VStore :=
  if store.any (fun p => p.1 = id) then
    store.map fun p => if p.1 = id then (id, r) else p
  else
    store ++ [(id, r)]

/-- Inner loop of `RAGManager.ingest_folder` for one file: split the
content into chunks (the splitter is the external
`RecursiveCharacterTextSplitter`, passed as `split`), and write chunk `i`
at id `<stem>_<i>` with metadata `{filename, chunk_index}`. -/
def RAGManager.ingest_file (split : String → List String) (store : VStore)
    (f : NoteFile) : VStore :=
  (split f.content).enum.foldl
    (fun st p => VStore.upsert st (f.stem ++ "_" ++ toString p.1)
      { text := p.2, filename := f.name, chunk_index := p.1 }) store

/-- Translation of `RAGManager.ingest_folder` over the files enumerated in
the folder (the folder-existence check and telemetry are glue; the file
list is a parameter). -/
def RAGManager.ingest_folder (split : String → List String) (store : VStore)
    (files : List NoteFile) : VStore :=
  files.foldl (RAGManager.ingest_file split) store

/-- The list of chunk ids present in a store. -/
def VStore.ids (store : VStore) : List String := store.map Prod.fst

/-! ## Claim-support definitions -/

/-- Shape of a store reply carrying zero matching documents: `documents`
absent, an empty batch list, or an empty first (and only) per-query list. -/
def noDocsReturned (results : QueryResults) : Prop :=
  results.documents = none ∨ results.documents = some [] ∨
    ∃ rest, results.documents = some ([] :: rest)

/-- Spec-side reading of "the last `n` entries in original chronological
order" of a log, for comparison with the code's slice. -/
def specLastEntries (n : Nat) (l : List MemoryEntry) : List MemoryEntry :=
  l.drop (l.length - n)

/-- The chunk ids `<stem>_<index>` produced for one file's chunks. -/
def fileChunkIds (split : String → List String) (f : NoteFile) : List String :=
  (split f.content).enum.map fun p => f.stem ++ "_" ++ toString p.1

/-- The chunk ids produced for a whole folder. -/
def folderChunkIds (split : String → List String) (files : List NoteFile) : List String :=
  (files.map (fileChunkIds split)).flatten

/-! ## Helper lemmas on the vector-store model -/

theorem mem_ids_upsert (store : VStore) (id x : String) (r : ChunkRec) :
    x ∈ VStore.ids (VStore.upsert store id r) ↔ x = id ∨ x ∈ VStore.ids store := by
  unfold VStore.upsert VStore.ids
  split
  next h =>
    rw [List.map_map]
    have hmapeq :
        store.map (Prod.fst ∘ fun p => if p.1 = id then (id, r) else p) =
          store.map Prod.fst := by
      apply List.map_congr_left
      intro p _
      by_cases hpe : p.1 = id
      · simp [hpe]
      · simp [hpe]
    rw [hmapeq]
    have hid : id ∈ store.map Prod.fst := by
      rcases List.any_eq_true.mp h with ⟨p, hp, hpe⟩
      have hpe2 : p.1 = id := by simpa using hpe
      rw [← hpe2]
      exact List.mem_map_of_mem Prod.fst hp
    constructor
    · exact Or.inr
    · rintro (rfl | hx)
      · exact hid
      · exact hx
  next _ =>
    simp [List.mem_append, or_comm]

theorem mem_ids_foldl_upsert {α : Type} (l : List α) (key : α → String)
    (payload : α → ChunkRec) (store : VStore) (x : String) :
    x ∈ VStore.ids (l.foldl (fun st a => VStore.upsert st (key a) (payload a)) store) ↔
      x ∈ l.map key ∨ x ∈ VStore.ids store := by
  induction l generalizing store with
  | nil => simp
  | cons a l ih =>
    simp only [List.foldl_cons, List.map_cons, List.mem_cons]
    rw [ih, mem_ids_upsert]
    tauto

theorem mem_ids_ingest_file (split : String → List String) (store : VStore)
    (f : NoteFile) (x : String) :
    x ∈ VStore.ids (RAGManager.ingest_file split store f) ↔
      x ∈ fileChunkIds split f ∨ x ∈ VStore.ids store := by
  unfold RAGManager.ingest_file fileChunkIds
  exact mem_ids_foldl_upsert _ _ _ _ _

theorem mem_ids_ingest_folder (split : String → List String) (store : VStore)
    (files : List NoteFile) (x : String) :
    x ∈ VStore.ids (RAGManager.ingest_folder split store files) ↔
      x ∈ folderChunkIds split files ∨ x ∈ VStore.ids store := by
  induction files generalizing store with
  | nil => simp [RAGManager.ingest_folder, folderChunkIds]
  | cons f fs ih =>
    have hstep : RAGManager.ingest_folder split store (f :: fs) =
        RAGManager.ingest_folder split (RAGManager.ingest_file split store f) fs := rfl
    rw [hstep, ih, mem_ids_ingest_file]
    simp only [folderChunkIds, List.map_cons, List.flatten_cons, List.mem_append]
    tauto

theorem length_upsert_of_mem (store : VStore) (id : String) (r : ChunkRec)
    (h : id ∈ VStore.ids store) :
    (VStore.upsert store id r).length = store.length := by
  unfold VStore.upsert
  rcases List.mem_map.mp h with ⟨p, hp, hpe⟩
  rw [if_pos (List.any_eq_true.mpr ⟨p, hp, by simp [hpe]⟩), List.length_map]

theorem length_foldl_upsert {α : Type} (l : List α) (key : α → String)
    (payload : α → ChunkRec) (store : VStore)
    (h : ∀ a ∈ l, key a ∈ VStore.ids store) :
    (l.foldl (fun st a => VStore.upsert st (key a) (payload a)) store).length =
      store.length := by
  induction l generalizing store with
  | nil => rfl
  | cons a l ih =>
    simp only [List.foldl_cons]
    rw [ih _ fun a2 ha2 => (mem_ids_upsert _ _ _ _).mpr
        (Or.inr (h a2 (List.mem_cons_of_mem _ ha2)))]
    exact length_upsert_of_mem _ _ _ (h a (List.mem_cons_self _ _))

theorem length_ingest_folder_of_subset (split : String → List String)
    (store : VStore) (files : List NoteFile)
    (h : ∀ x ∈ folderChunkIds split files, x ∈ VStore.ids store) :
    (RAGManager.ingest_folder split store files).length = store.length := by
  induction files generalizing store with
  | nil => rfl
  | cons f fs ih =>
    have hstep : RAGManager.ingest_folder split store (f :: fs) =
        RAGManager.ingest_folder split (RAGManager.ingest_file split store f) fs := rfl
    have hsplit : folderChunkIds split (f :: fs) =
        fileChunkIds split f ++ folderChunkIds split fs := by
      simp [folderChunkIds]
    have hfile : ∀ x ∈ fileChunkIds split f, x ∈ VStore.ids store := by
      intro x hx
      exact h x (hsplit ▸ List.mem_append_left _ hx)
    have hrest : ∀ x ∈ folderChunkIds split fs,
        x ∈ VStore.ids (RAGManager.ingest_file split store f) := by
      intro x hx
      rw [mem_ids_ingest_file]
      exact Or.inr (h x (hsplit ▸ List.mem_append_right _ hx))
    rw [hstep, ih _ hrest]
    unfold RAGManager.ingest_file
    apply length_foldl_upsert
    intro a ha
    apply hfile
    unfold fileChunkIds
    exact List.mem_map_of_mem _ ha

/-! ## Claim theorems -/

/-- C1 (counterexample): `rag_retrieve` does not deduplicate. On a result
set whose two raw matches share the `(filename, chunk_index)` pair
`("n.txt", 0)`, the formatted context contains two source blocks for that
single distinct pair, so the claim "exactly one source block per distinct
pair, later duplicates discarded" is false. -/
theorem rag_retrieve_dedup_counterexample :
    (contextBlocks ["dup", "dup"]
        [{ filename := some "n.txt", chunk_index := some 0 },
         { filename := some "n.txt", chunk_index := some 0 }]).length = 2 ∧
    (([({ filename := some "n.txt", chunk_index := some 0 } : Meta),
        { filename := some "n.txt", chunk_index := some 0 }].map
          fun m => (m.filename, m.chunk_index)).dedup).length = 1 ∧
    RAGManager.rag_retrieve
        { documents := some [["dup", "dup"]],
          metadatas := some [[{ filename := some "n.txt", chunk_index := some 0 },
                              { filename := some "n.txt", chunk_index := some 0 }]] } =
      "Here are some relevant notes from your knowledge base:\n\n[Source: n.txt]\ndup\n\n---\n[Source: n.txt]\ndup\n\n" := by
  refine ⟨by decide, by decide, by decide⟩

/-- C1 (amended): the formatted context returned by `rag_retrieve` contains
one source block per raw `(document, metadata)` pair of the zip of the
first documents list with the first metadatas list — duplicates of the same
`(filename, chunk_index)` pair are not removed, each raw match keeps its
own block (the block count is the minimum of the two list lengths,
independent of duplicate keys); deduplication by that key happens only in
the diagnostic `query_notes` path. -/
theorem rag_retrieve_no_dedup (docs : List String) (metas : List Meta)
    (rest : List (List String)) (mrest : List (List Meta)) (hd : docs ≠ []) :
    RAGManager.rag_retrieve
        { documents := some (docs :: rest), metadatas := some (metas :: mrest) } =
      ragPreamble ++ String.intercalate "\n---\n" (contextBlocks docs metas) ++ "\n" ∧
    (contextBlocks docs metas).length = min docs.length metas.length := by
  constructor
  · simp only [RAGManager.rag_retrieve]
    rw [if_neg hd]
  · simp [contextBlocks]

/-- C1 (witness): the amended theorem applied to the duplicate result set. -/
theorem rag_retrieve_no_dedup_witness :
    RAGManager.rag_retrieve
        { documents := some [["dup", "dup"]],
          metadatas := some [[{ filename := some "n.txt", chunk_index := some 0 },
                              { filename := some "n.txt", chunk_index := some 0 }]] } =
      ragPreamble ++ String.intercalate "\n---\n"
        (contextBlocks ["dup", "dup"]
          [{ filename := some "n.txt", chunk_index := some 0 },
           { filename := some "n.txt", chunk_index := some 0 }]) ++ "\n" :=
  (rag_retrieve_no_dedup _ _ _ _ (by decide)).1

/-- C2: ingesting the same folder twice leaves the vector store with the
same set of chunk ids as ingesting it once, and the collection does not
grow — the second pass writes each chunk to its existing id
`<stem>_<index>`, overwriting rather than adding entries. The store's
write operation is modelled from the spec's collaborator contract
(`VStore.upsert`); the splitter is an arbitrary function, so the statement
holds for any deterministic chunking of the same content. -/
theorem ingest_folder_idempotent (split : String → List String)
    (store : VStore) (files : List NoteFile) :
    (VStore.ids (RAGManager.ingest_folder split
        (RAGManager.ingest_folder split store files) files)).toFinset =
      (VStore.ids (RAGManager.ingest_folder split store files)).toFinset ∧
    (RAGManager.ingest_folder split
        (RAGManager.ingest_folder split store files) files).length =
      (RAGManager.ingest_folder split store files).length := by
  constructor
  · ext x
    simp only [List.mem_toFinset]
    rw [mem_ids_ingest_folder, mem_ids_ingest_folder]
    tauto
  · apply length_ingest_folder_of_subset
    intro x hx
    rw [mem_ids_ingest_folder]
    exact Or.inl hx

/-- C3: when the LLM call raises, `ThoughtAgent.run` propagates the
exception to the caller and returns the memory state unchanged: no entry is
appended and the file is not rewritten (the `add_entry` call sits after the
LLM call, and the `except` block only re-raises), so memory is written only
after a successful answer. -/
theorem thought_agent_run_model_failure (san : String → String)
    (queryStore : String → QueryResults) (llm : String → Except String String)
    (st : MemState) (prompt e : String)
    (h : llm (composePrompt
        (san (renderMemory (MemoryManager.get_recent_context st.log 3)))
        (san (RAGManager.rag_retrieve (queryStore (san prompt))))
        (san prompt)) = .error e) :
    ThoughtAgent.run san queryStore llm st prompt = (.error e, st) := by
  simp [ThoughtAgent.run, h]

/-- C3 (witness): a failing LLM leaves a concrete agent state untouched. -/
theorem thought_agent_run_model_failure_witness :
    ThoughtAgent.run id (fun _ => { documents := none, metadatas := none })
        (fun _ => .error "model down") { log := [], file := [] } "hello" =
      (.error "model down", { log := [], file := [] }) :=
  thought_agent_run_model_failure _ _ _ _ _ _ rfl

/-- C4: `PIIGuard.sanitize` never raises (it is a total function of its
fallible strategies): when the external strategy throws, the call falls
back to pattern-based redaction for that call, and when pattern-based
redaction also throws, the original unredacted text is returned. -/
theorem pii_sanitize_fail_open (g rs : String → Except String String)
    (text e : String) (ht : text ≠ "") (hg : g text = .error e) :
    (∀ s, rs text = .ok s → PIIGuard.sanitize true (some g) rs text = s) ∧
    (∀ e2, rs text = .error e2 → PIIGuard.sanitize true (some g) rs text = text) := by
  constructor
  · intro s hs
    simp [PIIGuard.sanitize, ht, hg, hs]
  · intro e2 he2
    simp [PIIGuard.sanitize, ht, hg, he2]

/-- C4 (witness): both strategies throwing yields the original input. -/
theorem pii_sanitize_fail_open_witness :
    PIIGuard.sanitize true (some fun _ => .error "detector down")
        (fun _ => .error "regex down") "call 555-123-4567" = "call 555-123-4567" :=
  (pii_sanitize_fail_open _ _ _ _ (by decide) rfl).2 _ rfl

/-- C5: whenever the vector store returns zero matching documents (the
`documents` key absent, an empty batch list, or an empty first list),
`rag_retrieve` returns exactly the literal fallback sentence. -/
theorem rag_retrieve_empty_results (results : QueryResults)
    (h : noDocsReturned results) :
    RAGManager.rag_retrieve results =
      "No relevant information found in your knowledge base." := by
  obtain ⟨d, m⟩ := results
  rcases h with h | h | ⟨rest, h⟩ <;>
    · simp only at h
      subst h
      rfl

/-- C5 (witness): a concrete empty result set yields the fallback. -/
theorem rag_retrieve_empty_results_witness :
    RAGManager.rag_retrieve { documents := some [[]], metadatas := none } =
      "No relevant information found in your knowledge base." :=
  rag_retrieve_empty_results _ (Or.inr (Or.inr ⟨[], rfl⟩))

/-- C6 (counterexample): for window size `n = 0` on a one-entry log, the
Python slice `memory[-0:]` is `memory[0:]`, the whole log — not the last
`0` entries — so the claim fails at `n = 0`. -/
theorem get_recent_context_zero_counterexample :
    ¬ (MemoryManager.get_recent_context [{ query := "q", response := "r" }] 0 =
        specLastEntries 0 [{ query := "q", response := "r" }]) := by
  decide

/-- C6 (amended): for every requested window size `n ≥ 1`,
`get_recent_context(n)` returns the whole log in original order when the
log has fewer than `n` entries, and exactly the last `n` entries in
original order when it has at least `n` (the returned list has length `n`
and the log is the untouched prefix followed by it). -/
theorem get_recent_context_window (memory : List MemoryEntry) (n : Nat)
    (hn : 1 ≤ n) :
    (memory.length < n → MemoryManager.get_recent_context memory n = memory) ∧
    (n ≤ memory.length →
      MemoryManager.get_recent_context memory n = specLastEntries n memory ∧
      (MemoryManager.get_recent_context memory n).length = n ∧
      memory.take (memory.length - n) ++
        MemoryManager.get_recent_context memory n = memory) := by
  have hn0 : n ≠ 0 := by omega
  unfold MemoryManager.get_recent_context specLastEntries
  rw [if_neg hn0]
  refine ⟨fun h => ?_, fun h => ⟨rfl, ?_, ?_⟩⟩
  · have hz : memory.length - n = 0 := by omega
    rw [hz, List.drop_zero]
  · rw [List.length_drop]
    omega
  · exact List.take_append_drop _ _

/-- C6 (witness): the amended window behaviour on a three-entry log. -/
theorem get_recent_context_window_witness :
    MemoryManager.get_recent_context
        [{ query := "a", response := "b" }, { query := "c", response := "d" },
         { query := "e", response := "f" }] 2 =
      specLastEntries 2
        [{ query := "a", response := "b" }, { query := "c", response := "d" },
         { query := "e", response := "f" }] :=
  ((get_recent_context_window _ 2 (by decide)).2 (by decide)).1

/-- C7: in every memory state reachable through `add_entry` and `clear`,
every stored entry has both its query and its response in the image of the
sanitizer — both strings were passed through `PIIGuard.sanitize` before
being stored — and the persisted file always equals the in-memory log. -/
theorem memory_entries_sanitized (san : String → String) (st : MemState)
    (h : MemReachable san st) :
    (∀ e ∈ st.log, ∃ q r, e = { query := san q, response := san r }) ∧
    st.file = st.log := by
  induction h with
  | init => exact ⟨by simp, rfl⟩
  | add st q r _ ih =>
    refine ⟨?_, rfl⟩
    intro e he
    simp only [MemoryManager.add_entry, List.mem_append, List.mem_singleton] at he
    rcases he with he | he
    · exact ih.1 e he
    · exact ⟨q, r, he⟩
  | clear st _ ih =>
    exact ⟨by simp [MemoryManager.clear], rfl⟩

/-- C7 (witness): the invariant applied to the state reached by a single
`add_entry` with the pattern sanitizer. -/
theorem memory_entries_sanitized_witness :
    ∃ q r, ({ query := "hi", response := "there" } : MemoryEntry) =
      { query := PIIGuard.sanitize_regex q, response := PIIGuard.sanitize_regex r } :=
  (memory_entries_sanitized PIIGuard.sanitize_regex
      (MemoryManager.add_entry PIIGuard.sanitize_regex
        { log := [], file := [] } "hi" "there")
      (MemReachable.add _ "hi" "there" MemReachable.init)).1
    { query := "hi", response := "there" } (by decide)

/-- C8: under the pattern strategy, sanitizing
"Contact me at a@b.com or 555-123-4567" yields
"Contact me at [REDACTED] or [REDACTED]": the email pattern replaces
"a@b.com", then the phone pattern replaces "555-123-4567", each with the
marker. -/
theorem sanitize_regex_contact_example :
    reSub emailRE "[REDACTED]" "Contact me at a@b.com or 555-123-4567" =
      "Contact me at [REDACTED] or 555-123-4567" ∧
    reSub phoneRE "[REDACTED]" "Contact me at [REDACTED] or 555-123-4567" =
      "Contact me at [REDACTED] or [REDACTED]" ∧
    PIIGuard.sanitize_regex "Contact me at a@b.com or 555-123-4567" =
      "Contact me at [REDACTED] or [REDACTED]" := by
  refine ⟨by decide, by decide, by decide⟩

/-- C9: with window size 0, `get_recent_context` returns the entire log in
original order (the slice `memory[-0:]` selects everything), for every log
with at least one entry. -/
theorem get_recent_context_zero_returns_all (memory : List MemoryEntry)
    (h : 1 ≤ memory.length) :
    MemoryManager.get_recent_context memory 0 = memory := rfl

/-- C9 (witness): window size 0 on a one-entry log returns that entry. -/
theorem get_recent_context_zero_returns_all_witness :
    MemoryManager.get_recent_context [{ query := "q", response := "r" }] 0 =
      [{ query := "q", response := "r" }] :=
  get_recent_context_zero_returns_all _ (by decide)

/-- C10: when the first documents list is non-empty but the metadatas list
is missing, empty, or has an empty first element, `rag_retrieve` returns
the preamble followed by zero source blocks: `zip` stops at the shorter
sequence, so every document without a paired metadata entry is silently
dropped from the formatted context. -/
theorem rag_retrieve_missing_metadata (results : QueryResults)
    (docs : List String) (rest : List (List String))
    (hdocs : results.documents = some (docs :: rest)) (hne : docs ≠ [])
    (hmeta : results.metadatas = none ∨ results.metadatas = some [] ∨
      ∃ mrest, results.metadatas = some ([] :: mrest)) :
    RAGManager.rag_retrieve results = ragPreamble ++ "\n" ∧
    contextBlocks docs [] = [] := by
  obtain ⟨d, m⟩ := results
  simp only at hdocs
  subst hdocs
  have hblocks : contextBlocks docs [] = [] := by
    simp [contextBlocks]
  refine ⟨?_, hblocks⟩
  rcases hmeta with hm | hm | ⟨mrest, hm⟩ <;>
    · simp only at hm
      subst hm
      simp only [RAGManager.rag_retrieve]
      rw [if_neg hne, hblocks]
      rfl

/-- C10 (witness): a document with no metadata yields the bare preamble. -/
theorem rag_retrieve_missing_metadata_witness :
    RAGManager.rag_retrieve { documents := some [["orphan doc"]], metadatas := none } =
      ragPreamble ++ "\n" :=
  (rag_retrieve_missing_metadata _ _ _ rfl (by decide) (Or.inl rfl)).1

end SecondBrain
